import Mathlib

/-!
Shallow embedding of the wordle-solver engine (src/src/Main.cpp) and proofs of
the specification claims about it.  Machine integers in the source stay well
below `2^31` on all inputs considered here, so they are modelled as `Nat`;
throwing constructors are modelled with `Option`.
-/

namespace WordleSolver

/-- Word length constant (`WORD_LENGTH` in Main.cpp). -/
def WORD_LENGTH : Nat := 5

/-- Feedback code for a guess letter absent from the solution (`FEEDBACK_NOT_IN_WORD`). -/
def FEEDBACK_NOT_IN_WORD : Nat := 0

/-- Feedback code for a guess letter present elsewhere in the solution (`FEEDBACK_IN_WORD`). -/
def FEEDBACK_IN_WORD : Nat := 1

/-- Feedback code for a guess letter in the correct position (`FEEDBACK_IN_POSITION`). -/
def FEEDBACK_IN_POSITION : Nat := 2

/-- Largest valid packed feedback id (the `MAX_FEEDBACK_ID` macro in Main.cpp):
all five 2-bit fields hold `FEEDBACK_IN_POSITION`. -/
def MAX_FEEDBACK_ID : Nat :=
  (FEEDBACK_IN_POSITION <<< (0 * 2)) |||
  (FEEDBACK_IN_POSITION <<< (1 * 2)) |||
  (FEEDBACK_IN_POSITION <<< (2 * 2)) |||
  (FEEDBACK_IN_POSITION <<< (3 * 2)) |||
  (FEEDBACK_IN_POSITION <<< (4 * 2))

/-- A game word (`class Word` in Main.cpp): exactly `WORD_LENGTH` letters, each a
lowercase ASCII letter.  The C++ constructor validates both conditions and throws
otherwise, so every constructed `Word` satisfies them; we carry them as invariants. -/
structure Word where
  letters : List Char
  len_eq : letters.length = WORD_LENGTH
  lower : ∀ c ∈ letters, 'a' ≤ c ∧ c ≤ 'z'

theorem Word.ext_letters : ∀ {a b : Word}, a.letters = b.letters → a = b := by
  intro a b h
  cases a
  cases b
  simp only at h
  subst h
  rfl

instance : DecidableEq Word := fun a b =>
  if h : a.letters = b.letters then
    isTrue (Word.ext_letters h)
  else
    isFalse (fun e => h (congrArg Word.letters e))

/-- `Word::operator[]` — the letter at 0-based position `i` (caller guarantees `i < WORD_LENGTH`). -/
def Word.letterAt (w : Word) (i : Nat) : Char := w.letters.getD i 'a'

/-- `Word::containsLetter` — true iff some position of the word holds `c`
(the `letterPositionMap[indexForLetter(c)].any()` test in Main.cpp). -/
def Word.containsLetter (w : Word) (c : Char) : Bool := w.letters.any (fun x => x == c)

/-- A recorded (guess, per-position feedback) pair (`struct GuessFeedback` in Main.cpp). -/
structure GuessFeedback where
  guess : List Char
  feedback : List Nat
deriving DecidableEq

/-- The `GuessFeedback(Word, int32_t)` constructor: copy the guess letters and
decode each 2-bit field of the feedback id. -/
def GuessFeedback.ofId (w : Word) (feedbackId : Nat) : GuessFeedback :=
  { guess := w.letters
    feedback := (List.range WORD_LENGTH).map (fun i => (feedbackId >>> (2 * i)) &&& 3) }

/-- The `switch (feedbackString[i])` in the `GuessFeedback(std::string, std::string)`
constructor: map a feedback character to its code, failing on anything else. -/
def charToFeedback (c : Char) : Option Nat :=
  if c = 'r' then some FEEDBACK_NOT_IN_WORD
  else if c = 'y' then some FEEDBACK_IN_WORD
  else if c = 'g' then some FEEDBACK_IN_POSITION
  else none

/-- The character-translation loop of the string constructor: translate every
feedback character, failing as soon as one is invalid. -/
def parseFeedbackChars : List Char → Option (List Nat)
  | [] => some []
  | c :: rest =>
    match charToFeedback c with
    | none => none
    | some f =>
      match parseFeedbackChars rest with
      | none => none
      | some fs => some (f :: fs)

/-- The `GuessFeedback(std::string, std::string)` constructor: validates both lengths,
then translates the feedback characters; any failure (a thrown `std::runtime_error`
in the C++) is `none`.  Guess characters are copied without validation. -/
def GuessFeedback.ofStrings (guessString feedbackString : List Char) : Option GuessFeedback :=
  if guessString.length ≠ WORD_LENGTH then none
  else if feedbackString.length ≠ WORD_LENGTH then none
  else
    match parseFeedbackChars feedbackString with
    | none => none
    | some fs => some { guess := guessString, feedback := fs }

/-- The body of one iteration of `GuessFeedback::isConsistentWith`: the check applied
at position `i`.  A feedback code other than 0/1/2 matches no `case` of the C++
`switch` and so imposes no constraint. -/
def feedbackMatches (fb : GuessFeedback) (w : Word) (i : Nat) : Bool :=
  let gc := fb.guess.getD i 'a'
  let code := fb.feedback.getD i 0
  if code = FEEDBACK_NOT_IN_WORD then !(w.containsLetter gc)
  else if code = FEEDBACK_IN_WORD then w.containsLetter gc && !(w.letterAt i == gc)
  else if code = FEEDBACK_IN_POSITION then w.letterAt i == gc
  else true

/-- `GuessFeedback::isConsistentWith`: every position's check passes. -/
def GuessFeedback.isConsistentWith (fb : GuessFeedback) (w : Word) : Bool :=
  (List.range WORD_LENGTH).all (fun i => feedbackMatches fb w i)

/-- The engine state (`class WordleGame` in Main.cpp): the guess vocabulary, the
answer vocabulary, and the stack of recorded feedbacks. -/
structure WordleGame where
  guessWords : List Word
  answerWords : List Word
  feedbacks : List GuessFeedback
deriving DecidableEq

/-- The `WordleGame` constructor: the answer vocabulary is appended onto the guess
vocabulary, and the feedback stack starts empty. -/
def mkGame (guessWordList answerWordList : List Word) : WordleGame :=
  { guessWords := guessWordList ++ answerWordList
    answerWords := answerWordList
    feedbacks := [] }

/-- An engine state reachable from `mkGame gl al` by `pushFeedback`/`popFeedback`:
the vocabularies are fixed at construction and the feedback stack is arbitrary. -/
def reachableGame (gl al : List Word) (fbs : List GuessFeedback) : WordleGame :=
  { guessWords := gl ++ al
    answerWords := al
    feedbacks := fbs }

/-- `WordleGame::pushFeedback` — push onto the end of the stack. -/
def WordleGame.pushFeedback (game : WordleGame) (fb : GuessFeedback) : WordleGame :=
  { game with feedbacks := game.feedbacks ++ [fb] }

/-- `WordleGame::popFeedback` — remove the most recently pushed feedback. -/
def WordleGame.popFeedback (game : WordleGame) : WordleGame :=
  { game with feedbacks := game.feedbacks.dropLast }

/-- `WordleGame::isPossibleAnswer` — consistent with every recorded feedback. -/
def WordleGame.isPossibleAnswer (game : WordleGame) (w : Word) : Bool :=
  game.feedbacks.all (fun fb => fb.isConsistentWith w)

/-- The subsequence of the answer vocabulary consistent with the current stack
(the words counted by the `numPossibleSolutions` loop of `getGuess`). -/
def possibleSolutions (game : WordleGame) : List Word :=
  game.answerWords.filter (fun w => game.isPossibleAnswer w)

/-- The per-position outcome code computed inside `WordleGame::computeFeedbackId`. -/
def feedbackCode (guess solution : Word) (i : Nat) : Nat :=
  if solution.letterAt i = guess.letterAt i then FEEDBACK_IN_POSITION
  else if solution.containsLetter (guess.letterAt i) then FEEDBACK_IN_WORD
  else FEEDBACK_NOT_IN_WORD

/-- `WordleGame::computeFeedbackId` — pack the five outcome codes into one integer,
code `i` at bit offset `2 * i` (the `result |= code << (2 * i)` loop). -/
def computeFeedbackId (guess solution : Word) : Nat :=
  (List.range WORD_LENGTH).foldl
    (fun result i => result ||| (feedbackCode guess solution i <<< (2 * i))) 0

/-- `WordleGame::computeFeedback` — the feedback id decoded against the guess. -/
def computeFeedback (guess solution : Word) : GuessFeedback :=
  GuessFeedback.ofId guess (computeFeedbackId guess solution)

/-- The packing pattern of `computeFeedbackId` applied to an arbitrary code array:
code `i` (0 when the array is too short) goes to bit offset `2 * i`. -/
def packFeedback (codes : List Nat) : Nat :=
  (List.range WORD_LENGTH).foldl
    (fun result i => result ||| (codes.getD i 0 <<< (2 * i))) 0

/-- One bucket of the first scoring loop of `getGuess`: the number of answers that
are still possible and produce feedback id `k` for the guess `g`
(`feedbackIdCounts[feedbackId]++`). -/
def feedbackIdCount (game : WordleGame) (g : Word) (k : Nat) : Nat :=
  game.answerWords.countP
    (fun s => game.isPossibleAnswer s && (computeFeedbackId g s == k))

/-- The inner loop of the second scoring loop of `getGuess`: after speculatively
pushing `fb`, the number of answers still possible (each of which contributes
`feedbackIdCounts[feedbackId]` to the score). -/
def remainingAfter (game : WordleGame) (fb : GuessFeedback) : Nat :=
  game.answerWords.countP (fun s => (game.pushFeedback fb).isPossibleAnswer s)

/-- The score `numberRemainingPossibleSolutions` that `getGuess` accumulates for a
potential guess `g`: for every feedback id `k` with a non-empty bucket, push the
decoded feedback, count the remaining possible answers, and add the bucket size
once for each of them; then pop. -/
def numberRemainingPossibleSolutions (game : WordleGame) (g : Word) : Nat :=
  ((List.range (MAX_FEEDBACK_ID + 1)).map
    (fun k =>
      if feedbackIdCount game g k = 0 then 0
      else remainingAfter game (GuessFeedback.ofId g k) * feedbackIdCount game g k)).sum

/-- The best-guess tracking of `getGuess`: fold over the guess vocabulary keeping
the pair (least score, best guess); `none` models the `-1` sentinel for the least
score, so the first iteration always records its guess, and later iterations
update only on a strictly smaller score. -/
def selectBest (f : Word → Nat) : List Word → Option (Nat × Word) → Option (Nat × Word)
  | [], acc => acc
  | g :: rest, acc =>
    match acc with
    | none => selectBest f rest (some (f g, g))
    | some p =>
      if f g < p.1 then selectBest f rest (some (f g, g)) else selectBest f rest (some p)

/-- The fixed first guess returned by `getGuess` on an empty stack. -/
def roateWord : Word :=
  { letters := ['r', 'o', 'a', 't', 'e'], len_eq := by decide, lower := by decide }

/-- `WordleGame::getGuess`.  An empty stack returns the precomputed word "roate".
Otherwise the C++ immediately reads `(*guessWords)[0]` (undefined on an empty
vocabulary, modelled as `none`); when at most 2 answers are still possible it
returns the first of them, falling through to the full scored search when none
are; otherwise it runs the full scored search. -/
def WordleGame.getGuess (game : WordleGame) : Option Word :=
  if game.feedbacks = [] then some roateWord
  else
    match game.guessWords with
    | [] => none
    | g0 :: rest =>
      if (possibleSolutions game).length ≤ 2 then
        match possibleSolutions game with
        | p :: _ => some p
        | [] =>
          (selectBest (numberRemainingPossibleSolutions game) (g0 :: rest) none).map
            (fun p => p.2)
      else
        (selectBest (numberRemainingPossibleSolutions game) (g0 :: rest) none).map
          (fun p => p.2)

/-- One round of the interaction loop in `main` at the point where feedback is read:
a valid feedback line is pushed onto the stack, and a construction failure is
caught (`Invalid feedback!` is printed and the user re-prompted) leaving the
engine state unchanged. -/
def tryPushFeedback (game : WordleGame) (guessString feedbackString : List Char) : WordleGame :=
  match GuessFeedback.ofStrings guessString feedbackString with
  | some fb => game.pushFeedback fb
  | none => game

/-- The word "apple" from the specification scenario. -/
def wordApple : Word :=
  { letters := ['a', 'p', 'p', 'l', 'e'], len_eq := by decide, lower := by decide }

/-- The word "angle" from the specification scenario. -/
def wordAngle : Word :=
  { letters := ['a', 'n', 'g', 'l', 'e'], len_eq := by decide, lower := by decide }

/-- The word "ample" from the specification scenario. -/
def wordAmple : Word :=
  { letters := ['a', 'm', 'p', 'l', 'e'], len_eq := by decide, lower := by decide }

/-- A word sharing no letter with the three scenario words; used to build witness
states in which all three remain possible. -/
def wordZippy : Word :=
  { letters := ['z', 'z', 'z', 'z', 'z'], len_eq := by decide, lower := by decide }

/-! ### Packing and unpacking feedback ids -/

/-- The shape shared by `computeFeedbackId` and `packFeedback` once the
fold over `List.range WORD_LENGTH` is unrolled. -/
def pack5 (a b c d e : Nat) : Nat :=
  ((((0 ||| (a <<< (2 * 0))) ||| (b <<< (2 * 1))) ||| (c <<< (2 * 2))) ||| (d <<< (2 * 3))) |||
    (e <<< (2 * 4))

theorem computeFeedbackId_eq_pack5 (g s : Word) :
    computeFeedbackId g s =
      pack5 (feedbackCode g s 0) (feedbackCode g s 1) (feedbackCode g s 2)
        (feedbackCode g s 3) (feedbackCode g s 4) := rfl

theorem packFeedback_eq_pack5 (codes : List Nat) :
    packFeedback codes =
      pack5 (codes.getD 0 0) (codes.getD 1 0) (codes.getD 2 0) (codes.getD 3 0)
        (codes.getD 4 0) := rfl

theorem pack5_le : ∀ a, a < 3 → ∀ b, b < 3 → ∀ c, c < 3 → ∀ d, d < 3 → ∀ e, e < 3 →
    pack5 a b c d e ≤ MAX_FEEDBACK_ID := by decide

theorem pack5_field0 : ∀ a, a < 3 → ∀ b, b < 3 → ∀ c, c < 3 → ∀ d, d < 3 → ∀ e, e < 3 →
    (pack5 a b c d e >>> (2 * 0)) &&& 3 = a := by decide

theorem pack5_field1 : ∀ a, a < 3 → ∀ b, b < 3 → ∀ c, c < 3 → ∀ d, d < 3 → ∀ e, e < 3 →
    (pack5 a b c d e >>> (2 * 1)) &&& 3 = b := by decide

theorem pack5_field2 : ∀ a, a < 3 → ∀ b, b < 3 → ∀ c, c < 3 → ∀ d, d < 3 → ∀ e, e < 3 →
    (pack5 a b c d e >>> (2 * 2)) &&& 3 = c := by decide

theorem pack5_field3 : ∀ a, a < 3 → ∀ b, b < 3 → ∀ c, c < 3 → ∀ d, d < 3 → ∀ e, e < 3 →
    (pack5 a b c d e >>> (2 * 3)) &&& 3 = d := by decide

theorem pack5_field4 : ∀ a, a < 3 → ∀ b, b < 3 → ∀ c, c < 3 → ∀ d, d < 3 → ∀ e, e < 3 →
    (pack5 a b c d e >>> (2 * 4)) &&& 3 = e := by decide

theorem feedbackCode_lt (g s : Word) (i : Nat) : feedbackCode g s i < 3 := by
  unfold feedbackCode
  split
  · decide
  · split
    · decide
    · decide

/-- Every 2-bit field of a packed feedback id recovers the corresponding outcome code. -/
theorem computeFeedbackId_field (g s : Word) :
    ∀ i, i < WORD_LENGTH → (computeFeedbackId g s >>> (2 * i)) &&& 3 = feedbackCode g s i := by
  have c0 := feedbackCode_lt g s 0
  have c1 := feedbackCode_lt g s 1
  have c2 := feedbackCode_lt g s 2
  have c3 := feedbackCode_lt g s 3
  have c4 := feedbackCode_lt g s 4
  intro i hi
  have hi5 : i < 5 := hi
  clear hi
  rw [computeFeedbackId_eq_pack5]
  interval_cases i
  · exact pack5_field0 _ c0 _ c1 _ c2 _ c3 _ c4
  · exact pack5_field1 _ c0 _ c1 _ c2 _ c3 _ c4
  · exact pack5_field2 _ c0 _ c1 _ c2 _ c3 _ c4
  · exact pack5_field3 _ c0 _ c1 _ c2 _ c3 _ c4
  · exact pack5_field4 _ c0 _ c1 _ c2 _ c3 _ c4

theorem computeFeedbackId_le (g s : Word) : computeFeedbackId g s ≤ MAX_FEEDBACK_ID := by
  rw [computeFeedbackId_eq_pack5]
  exact pack5_le _ (feedbackCode_lt g s 0) _ (feedbackCode_lt g s 1) _ (feedbackCode_lt g s 2)
    _ (feedbackCode_lt g s 3) _ (feedbackCode_lt g s 4)

/-! ### Consistency against a decoded feedback -/

theorem getD_mem_of_lt {α : Type} (l : List α) (i : Nat) (d : α) (h : i < l.length) :
    l.getD i d ∈ l := by
  induction l generalizing i with
  | nil => exact absurd h (Nat.not_lt_zero i)
  | cons a t ih =>
    cases i with
    | zero => simp
    | succ n =>
      have hn : n < t.length := Nat.lt_of_succ_lt_succ h
      simpa using Or.inr (ih n hn)

theorem containsLetter_iff (w : Word) (c : Char) :
    w.containsLetter c = true ↔ c ∈ w.letters := by
  unfold Word.containsLetter
  simp only [List.any_eq_true, beq_iff_eq]
  exact ⟨fun ⟨x, hx, e⟩ => e ▸ hx, fun h => ⟨c, h, rfl⟩⟩

theorem containsLetter_letterAt (w : Word) (i : Nat) (hi : i < WORD_LENGTH) :
    w.containsLetter (w.letterAt i) = true := by
  rw [containsLetter_iff]
  exact getD_mem_of_lt w.letters i 'a' (by rw [w.len_eq]; exact hi)

/-- The decoded feedback array of `GuessFeedback.ofId` at a position in range. -/
theorem ofId_feedback_getD (w : Word) (k : Nat) :
    ∀ i, i < WORD_LENGTH → (GuessFeedback.ofId w k).feedback.getD i 0 = (k >>> (2 * i)) &&& 3 := by
  intro i hi
  have hi5 : i < 5 := hi
  clear hi
  interval_cases i <;> rfl

/-- The check `isConsistentWith` applies at position `i` against a feedback whose
guess text is `g` and whose code there is `c < 3` is exactly the test that the
solution word `s` would reproduce the code `c` at `i`. -/
theorem feedbackMatches_eq_code (g s : Word) (i : Nat) (hi : i < WORD_LENGTH) (c : Nat)
    (hc : c < 3) (fb : GuessFeedback) (hg : fb.guess = g.letters)
    (hf : fb.feedback.getD i 0 = c) :
    feedbackMatches fb s i = (feedbackCode g s i == c) := by
  unfold feedbackMatches
  rw [hg, hf]
  show (if c = FEEDBACK_NOT_IN_WORD then !(s.containsLetter (g.letterAt i))
    else if c = FEEDBACK_IN_WORD then s.containsLetter (g.letterAt i) && !(s.letterAt i == g.letterAt i)
    else if c = FEEDBACK_IN_POSITION then s.letterAt i == g.letterAt i
    else true) = (feedbackCode g s i == c)
  by_cases h1 : s.letterAt i = g.letterAt i
  · have hcont : s.containsLetter (g.letterAt i) = true := by
      rw [← h1]
      exact containsLetter_letterAt s i hi
    interval_cases c <;>
      simp [FEEDBACK_NOT_IN_WORD, FEEDBACK_IN_WORD, FEEDBACK_IN_POSITION, feedbackCode, h1, hcont]
  · by_cases h2 : s.containsLetter (g.letterAt i) = true
    · interval_cases c <;>
        simp [FEEDBACK_NOT_IN_WORD, FEEDBACK_IN_WORD, FEEDBACK_IN_POSITION, feedbackCode, h1, h2]
    · have h2f : s.containsLetter (g.letterAt i) = false := by
        exact Bool.not_eq_true _ ▸ eq_false_of_ne_true h2
      interval_cases c <;>
        simp [FEEDBACK_NOT_IN_WORD, FEEDBACK_IN_WORD, FEEDBACK_IN_POSITION, feedbackCode, h1, h2f]

/-- `isConsistentWith` is the conjunction of the per-position checks. -/
theorem isConsistentWith_eq_all (fb : GuessFeedback) (w : Word) :
    fb.isConsistentWith w = true ↔ ∀ i, i < WORD_LENGTH → feedbackMatches fb w i = true := by
  unfold GuessFeedback.isConsistentWith
  rw [List.all_eq_true]
  constructor
  · intro h i hi
    exact h i (List.mem_range.mpr hi)
  · intro h i hi
    exact h i (List.mem_range.mp hi)

/-- A word `s` is consistent with the feedback that the guess `g` produces on `s0`
exactly when `s` produces the same feedback id on `g` as `s0` does. -/
theorem isConsistentWith_computeFeedback (g s0 s : Word) :
    (computeFeedback g s0).isConsistentWith s = true ↔
      computeFeedbackId g s = computeFeedbackId g s0 := by
  have hmatch : ∀ i, i < WORD_LENGTH →
      feedbackMatches (computeFeedback g s0) s i = (feedbackCode g s i == feedbackCode g s0 i) := by
    intro i hi
    refine feedbackMatches_eq_code g s i hi (feedbackCode g s0 i) (feedbackCode_lt g s0 i)
      (computeFeedback g s0) rfl ?_
    show (GuessFeedback.ofId g (computeFeedbackId g s0)).feedback.getD i 0 = feedbackCode g s0 i
    rw [ofId_feedback_getD g (computeFeedbackId g s0) i hi]
    exact computeFeedbackId_field g s0 i hi
  rw [isConsistentWith_eq_all]
  constructor
  · intro h
    rw [computeFeedbackId_eq_pack5 g s, computeFeedbackId_eq_pack5 g s0]
    have hcode : ∀ i, i < WORD_LENGTH → feedbackCode g s i = feedbackCode g s0 i := by
      intro i hi
      have := h i hi
      rw [hmatch i hi] at this
      exact beq_iff_eq.mp this
    rw [hcode 0 (by decide), hcode 1 (by decide), hcode 2 (by decide), hcode 3 (by decide),
      hcode 4 (by decide)]
  · intro h i hi
    rw [hmatch i hi]
    have : feedbackCode g s i = feedbackCode g s0 i := by
      rw [← computeFeedbackId_field g s i hi, ← computeFeedbackId_field g s0 i hi, h]
    exact beq_iff_eq.mpr this

/-! ### Bucket counts and the score -/

theorem isPossibleAnswer_push (game : WordleGame) (fb : GuessFeedback) (s : Word) :
    (game.pushFeedback fb).isPossibleAnswer s =
      (game.isPossibleAnswer s && fb.isConsistentWith s) := by
  unfold WordleGame.isPossibleAnswer WordleGame.pushFeedback
  simp [List.all_append]

/-- After speculatively pushing the feedback that `g` produces on a word `s0`, the
remaining possible answers are exactly the already-possible answers whose feedback
id for `g` equals that of `s0`. -/
theorem remainingAfter_eq_count (game : WordleGame) (g s0 : Word) :
    remainingAfter game (computeFeedback g s0) =
      feedbackIdCount game g (computeFeedbackId g s0) := by
  unfold remainingAfter feedbackIdCount
  refine List.countP_congr ?_
  intro s _
  rw [isPossibleAnswer_push]
  have : (computeFeedback g s0).isConsistentWith s =
      (computeFeedbackId g s == computeFeedbackId g s0) := by
    rw [Bool.eq_iff_iff]
    rw [isConsistentWith_computeFeedback, beq_iff_eq]
  rw [this]

/-- Each term of the score sum is the squared bucket size. -/
theorem score_term_eq_sq (game : WordleGame) (g : Word) (k : Nat) :
    (if feedbackIdCount game g k = 0 then 0
      else remainingAfter game (GuessFeedback.ofId g k) * feedbackIdCount game g k) =
      feedbackIdCount game g k * feedbackIdCount game g k := by
  by_cases h : feedbackIdCount game g k = 0
  · rw [if_pos h, h]
  · rw [if_neg h]
    have hpos : 0 < feedbackIdCount game g k := Nat.pos_of_ne_zero h
    obtain ⟨s0, _, hs0⟩ := List.countP_pos_iff.mp hpos
    have hk : computeFeedbackId g s0 = k := by
      have := (Bool.and_eq_true _ _).mp hs0
      exact beq_iff_eq.mp this.2
    have h2 := remainingAfter_eq_count game g s0
    unfold computeFeedback at h2
    rw [hk] at h2
    rw [h2]

/-- The score `getGuess` accumulates for `g` is the sum of the squared bucket sizes. -/
theorem score_eq_sum_sq (game : WordleGame) (g : Word) :
    numberRemainingPossibleSolutions game g =
      ((List.range (MAX_FEEDBACK_ID + 1)).map
        (fun k => feedbackIdCount game g k * feedbackIdCount game g k)).sum := by
  unfold numberRemainingPossibleSolutions
  exact congrArg List.sum (List.map_congr_left (fun k _ => score_term_eq_sq game g k))

/-- When no answer is still possible, every bucket is empty and every score is 0. -/
theorem score_eq_zero_of_no_possible (game : WordleGame)
    (h : possibleSolutions game = []) (g : Word) :
    numberRemainingPossibleSolutions game g = 0 := by
  have hz : ∀ k, feedbackIdCount game g k = 0 := by
    intro k
    unfold feedbackIdCount
    rw [List.countP_eq_zero]
    intro s hs
    have hfail : ¬ game.isPossibleAnswer s = true := by
      have := List.filter_eq_nil_iff.mp h s hs
      simpa using this
    simp [Bool.eq_false_iff.mpr (fun e => hfail e)]
  rw [score_eq_sum_sq]
  have hterm : ∀ k ∈ List.range (MAX_FEEDBACK_ID + 1),
      feedbackIdCount game g k * feedbackIdCount game g k = 0 := by
    intro k _
    rw [hz k]
  rw [List.map_congr_left hterm]
  simp

/-! ### The best-guess fold -/

/-- Invariant of the best-guess fold: starting from a recorded pair `(s, b)`, the
fold either keeps it (and every remaining score is at least `s`), or ends on the
first strictly better element of `l`. -/
theorem selectBest_go (f : Word → Nat) (l : List Word) (s : Nat) (b : Word) :
    (selectBest f l (some (s, b)) = some (s, b) ∧
      ∀ j, ∀ hj : j < l.length, s ≤ f (l.get ⟨j, hj⟩)) ∨
    (∃ i, ∃ hi : i < l.length,
      selectBest f l (some (s, b)) = some (f (l.get ⟨i, hi⟩), l.get ⟨i, hi⟩) ∧
      f (l.get ⟨i, hi⟩) < s ∧
      (∀ j, ∀ hj : j < l.length, f (l.get ⟨i, hi⟩) ≤ f (l.get ⟨j, hj⟩)) ∧
      (∀ j, ∀ hj : j < l.length, j < i → f (l.get ⟨i, hi⟩) < f (l.get ⟨j, hj⟩))) := by
  induction l generalizing s b with
  | nil =>
    left
    exact ⟨rfl, fun j hj => absurd hj (Nat.not_lt_zero j)⟩
  | cons a t ih =>
    by_cases hfa : f a < s
    · have hstep : selectBest f (a :: t) (some (s, b)) = selectBest f t (some (f a, a)) := by
        simp [selectBest, hfa]
      rcases ih (f a) a with ⟨heq, hall⟩ | ⟨i, hi, heq, hlt, hall, hfirst⟩
      · right
        refine ⟨0, Nat.succ_pos t.length, ?_, hfa, ?_, ?_⟩
        · rw [hstep, heq]
          rfl
        · intro j hj
          cases j with
          | zero => exact Nat.le_refl _
          | succ n => exact hall n (Nat.lt_of_succ_lt_succ hj)
        · intro j hj hji
          exact absurd hji (Nat.not_lt_zero j)
      · right
        refine ⟨i + 1, Nat.succ_lt_succ hi, ?_, ?_, ?_, ?_⟩
        · rw [hstep, heq]
          rfl
        · exact Nat.lt_trans hlt hfa
        · intro j hj
          cases j with
          | zero => exact Nat.le_of_lt hlt
          | succ n => exact hall n (Nat.lt_of_succ_lt_succ hj)
        · intro j hj hji
          cases j with
          | zero => exact hlt
          | succ n => exact hfirst n (Nat.lt_of_succ_lt_succ hj) (Nat.lt_of_succ_lt_succ hji)
    · have hstep : selectBest f (a :: t) (some (s, b)) = selectBest f t (some (s, b)) := by
        simp [selectBest, hfa]
      have has : s ≤ f a := Nat.le_of_not_lt hfa
      rcases ih s b with ⟨heq, hall⟩ | ⟨i, hi, heq, hlt, hall, hfirst⟩
      · left
        refine ⟨by rw [hstep, heq], ?_⟩
        intro j hj
        cases j with
        | zero => exact has
        | succ n => exact hall n (Nat.lt_of_succ_lt_succ hj)
      · right
        refine ⟨i + 1, Nat.succ_lt_succ hi, ?_, hlt, ?_, ?_⟩
        · rw [hstep, heq]
          rfl
        · intro j hj
          cases j with
          | zero => exact Nat.le_of_lt (Nat.lt_of_lt_of_le hlt has)
          | succ n => exact hall n (Nat.lt_of_succ_lt_succ hj)
        · intro j hj hji
          cases j with
          | zero => exact Nat.lt_of_lt_of_le hlt has
          | succ n => exact hfirst n (Nat.lt_of_succ_lt_succ hj) (Nat.lt_of_succ_lt_succ hji)

/-- The best-guess fold started on a non-empty vocabulary with the `-1` sentinel
returns the first element achieving the minimal score. -/
theorem selectBest_spec (f : Word → Nat) (g0 : Word) (rest : List Word) :
    ∃ i, ∃ hi : i < (g0 :: rest).length,
      (selectBest f (g0 :: rest) none).map (fun p => p.2) =
        some ((g0 :: rest).get ⟨i, hi⟩) ∧
      (∀ j, ∀ hj : j < (g0 :: rest).length,
        f ((g0 :: rest).get ⟨i, hi⟩) ≤ f ((g0 :: rest).get ⟨j, hj⟩)) ∧
      (∀ j, ∀ hj : j < (g0 :: rest).length, j < i →
        f ((g0 :: rest).get ⟨i, hi⟩) < f ((g0 :: rest).get ⟨j, hj⟩)) := by
  have hstep : selectBest f (g0 :: rest) none = selectBest f rest (some (f g0, g0)) := by
    simp [selectBest]
  rcases selectBest_go f rest (f g0) g0 with ⟨heq, hall⟩ | ⟨i, hi, heq, hlt, hall, hfirst⟩
  · refine ⟨0, Nat.succ_pos rest.length, ?_, ?_, ?_⟩
    · rw [hstep, heq]
      rfl
    · intro j hj
      cases j with
      | zero => exact Nat.le_refl _
      | succ n => exact hall n (Nat.lt_of_succ_lt_succ hj)
    · intro j hj hji
      exact absurd hji (Nat.not_lt_zero j)
  · refine ⟨i + 1, Nat.succ_lt_succ hi, ?_, ?_, ?_⟩
    · rw [hstep, heq]
      rfl
    · intro j hj
      cases j with
      | zero => exact Nat.le_of_lt hlt
      | succ n => exact hall n (Nat.lt_of_succ_lt_succ hj)
    · intro j hj hji
      cases j with
      | zero => exact hlt
      | succ n => exact hfirst n (Nat.lt_of_succ_lt_succ hj) (Nat.lt_of_succ_lt_succ hji)

/-! ### The paths through getGuess -/

theorem getGuess_full (game : WordleGame) (g0 : Word) (rest : List Word)
    (h1 : game.feedbacks ≠ []) (hg : game.guessWords = g0 :: rest)
    (h2 : 3 ≤ (possibleSolutions game).length ∨ possibleSolutions game = []) :
    game.getGuess =
      (selectBest (numberRemainingPossibleSolutions game) (g0 :: rest) none).map
        (fun p => p.2) := by
  rcases h2 with h2 | h2
  · have hlen : ¬ (possibleSolutions game).length ≤ 2 := by omega
    simp [WordleGame.getGuess, h1, hg, hlen]
  · simp [WordleGame.getGuess, h1, hg, h2]

theorem getGuess_small (game : WordleGame) (g0 : Word) (rest : List Word) (p : Word)
    (t : List Word) (h1 : game.feedbacks ≠ []) (hg : game.guessWords = g0 :: rest)
    (hp : possibleSolutions game = p :: t) (hlen : (p :: t).length ≤ 2) :
    game.getGuess = some p := by
  rcases t with _ | ⟨q, _ | ⟨r, t3⟩⟩
  · simp [WordleGame.getGuess, h1, hg, hp]
  · simp [WordleGame.getGuess, h1, hg, hp]
  · exfalso
    simp only [List.length_cons] at hlen
    omega

theorem possibleSolutions_reachable (gl al : List Word) (fbs : List GuessFeedback) :
    possibleSolutions (reachableGame gl al fbs) =
      al.filter (fun w => (reachableGame gl al fbs).isPossibleAnswer w) := rfl

/-! ### Feedback-string parsing -/

theorem charToFeedback_eq_none (c : Char) :
    charToFeedback c = none ↔ c ≠ 'r' ∧ c ≠ 'y' ∧ c ≠ 'g' := by
  unfold charToFeedback
  by_cases h1 : c = 'r' <;> by_cases h2 : c = 'y' <;> by_cases h3 : c = 'g' <;>
    simp [h1, h2, h3]

theorem parseFeedbackChars_eq_none (l : List Char) :
    parseFeedbackChars l = none ↔ ∃ c ∈ l, charToFeedback c = none := by
  induction l with
  | nil => simp [parseFeedbackChars]
  | cons c rest ih =>
    unfold parseFeedbackChars
    cases hc : charToFeedback c with
    | none =>
      simp only [true_iff, reduceCtorEq]
      exact ⟨c, List.mem_cons_self c rest, hc⟩
    | some f =>
      cases hr : parseFeedbackChars rest with
      | none =>
        simp only [true_iff]
        obtain ⟨d, hd, hbad⟩ := ih.mp hr
        exact ⟨d, List.mem_cons_of_mem c hd, hbad⟩
      | some fs =>
        simp only [reduceCtorEq, false_iff]
        rintro ⟨d, hd, hbad⟩
        rcases List.mem_cons.mp hd with hdc | hdr
        · rw [hdc] at hbad
          rw [hbad] at hc
          exact Option.noConfusion hc
        · have : parseFeedbackChars rest = none := ih.mpr ⟨d, hdr, hbad⟩
          rw [this] at hr
          exact Option.noConfusion hr

/-! ### The claims -/

/-- C2: for every guess `g` and solution `s`, the feedback id that `g` produces on `s`,
decoded against `g` into a `GuessFeedback`, is a constraint that `s` itself satisfies:
the true solution is always consistent with the feedback it produces. -/
theorem claim_c2_self_consistent (g s : Word) :
    (computeFeedback g s).isConsistentWith s = true :=
  (isConsistentWith_computeFeedback g s s).mpr rfl

/-- C3 counterexample: `computeFeedbackId` on guess "apple" against solution "angle"
does not yield the outcome array claimed by the specification scenario,
`[CORRECT_POSITION, CORRECT_POSITION, ABSENT, PRESENT_ELSEWHERE, CORRECT_POSITION]`. -/
theorem claim_c3_counterexample :
    ¬ ((GuessFeedback.ofId wordApple (computeFeedbackId wordApple wordAngle)).feedback =
      [FEEDBACK_IN_POSITION, FEEDBACK_IN_POSITION, FEEDBACK_NOT_IN_WORD, FEEDBACK_IN_WORD,
        FEEDBACK_IN_POSITION]) := by decide

/-- C3 amended: `computeFeedbackId` on guess "apple" against solution "angle" yields the
per-position outcome array `[CORRECT_POSITION, ABSENT, ABSENT, CORRECT_POSITION,
CORRECT_POSITION]` (a-p-p-l-e against a-n-g-l-e: 'a', 'l', 'e' match in place and 'p'
does not occur in "angle"). -/
theorem claim_c3_amended :
    (GuessFeedback.ofId wordApple (computeFeedbackId wordApple wordAngle)).feedback =
      [FEEDBACK_IN_POSITION, FEEDBACK_NOT_IN_WORD, FEEDBACK_NOT_IN_WORD, FEEDBACK_IN_POSITION,
        FEEDBACK_IN_POSITION] := by decide

/-- C4: packing any length-5 outcome array with codes in {0, 1, 2} into an integer key
(2 bits per position, position `i` at bit offset `2 * i`, as in `computeFeedbackId`)
and decoding that key through the `GuessFeedback(Word, int32_t)` constructor reproduces
the identical outcome array. -/
theorem claim_c4_pack_unpack (w : Word) (codes : List Nat)
    (hlen : codes.length = WORD_LENGTH) (hcodes : ∀ c ∈ codes, c ≤ 2) :
    (GuessFeedback.ofId w (packFeedback codes)).feedback = codes := by
  obtain ⟨a, b, c, d, e, hc⟩ : ∃ a b c d e, codes = [a, b, c, d, e] := by
    rcases codes with _ | ⟨a, _ | ⟨b, _ | ⟨c, _ | ⟨d, _ | ⟨e, _ | ⟨f, r⟩⟩⟩⟩⟩⟩ <;>
      simp [WORD_LENGTH] at hlen
    exact ⟨a, b, c, d, e, rfl⟩
  subst hc
  have ha : a < 3 := Nat.lt_succ_of_le (hcodes a (by simp))
  have hb : b < 3 := Nat.lt_succ_of_le (hcodes b (by simp))
  have hcc : c < 3 := Nat.lt_succ_of_le (hcodes c (by simp))
  have hd : d < 3 := Nat.lt_succ_of_le (hcodes d (by simp))
  have he : e < 3 := Nat.lt_succ_of_le (hcodes e (by simp))
  have hpack : packFeedback [a, b, c, d, e] = pack5 a b c d e := rfl
  have hfb : (GuessFeedback.ofId w (pack5 a b c d e)).feedback =
      [(pack5 a b c d e >>> (2 * 0)) &&& 3, (pack5 a b c d e >>> (2 * 1)) &&& 3,
        (pack5 a b c d e >>> (2 * 2)) &&& 3, (pack5 a b c d e >>> (2 * 3)) &&& 3,
        (pack5 a b c d e >>> (2 * 4)) &&& 3] := rfl
  rw [hpack, hfb, pack5_field0 a ha b hb c hcc d hd e he, pack5_field1 a ha b hb c hcc d hd e he,
    pack5_field2 a ha b hb c hcc d hd e he, pack5_field3 a ha b hb c hcc d hd e he,
    pack5_field4 a ha b hb c hcc d hd e he]

/-- Witness for C4 at a concrete outcome array. -/
theorem claim_c4_witness :
    ([(0 : Nat), 1, 2, 2, 0].length = WORD_LENGTH ∧ ∀ c ∈ [(0 : Nat), 1, 2, 2, 0], c ≤ 2) ∧
    (GuessFeedback.ofId wordApple (packFeedback [0, 1, 2, 2, 0])).feedback = [0, 1, 2, 2, 0] :=
  ⟨⟨by decide, by decide⟩,
    claim_c4_pack_unpack wordApple [0, 1, 2, 2, 0] (by decide) (by decide)⟩

/-- C8: whenever the feedback stack is empty, `getGuess` returns the fixed opening word
"roate" without any search, regardless of the vocabularies. -/
theorem claim_c8_first_guess (game : WordleGame) (h : game.feedbacks = []) :
    game.getGuess = some roateWord := by
  simp [WordleGame.getGuess, h]

/-- Witness for C8 on a freshly constructed empty-vocabulary engine. -/
theorem claim_c8_witness :
    (mkGame [] []).feedbacks = [] ∧ (mkGame [] []).getGuess = some roateWord :=
  ⟨rfl, claim_c8_first_guess (mkGame [] []) rfl⟩

/-- C10: for every pair of words, the packed feedback id lies between 0 and
`MAX_FEEDBACK_ID` inclusive, and every 2-bit field of it is 0, 1 or 2 (never 3); hence
indexing the bucket-count array of size `MAX_FEEDBACK_ID + 1` with it is in bounds. -/
theorem claim_c10_id_bounds (g s : Word) :
    computeFeedbackId g s ≤ MAX_FEEDBACK_ID ∧
    ∀ i, i < WORD_LENGTH → (computeFeedbackId g s >>> (2 * i)) &&& 3 ≤ 2 := by
  refine ⟨computeFeedbackId_le g s, ?_⟩
  intro i hi
  rw [computeFeedbackId_field g s i hi]
  exact Nat.lt_succ_iff.mp (feedbackCode_lt g s i)

/-- Witness for C10 at concrete words and field index 1. -/
theorem claim_c10_witness :
    computeFeedbackId wordApple wordAngle ≤ MAX_FEEDBACK_ID ∧
    (1 < WORD_LENGTH ∧ (computeFeedbackId wordApple wordAngle >>> (2 * 1)) &&& 3 ≤ 2) :=
  ⟨(claim_c10_id_bounds wordApple wordAngle).1, by decide,
    (claim_c10_id_bounds wordApple wordAngle).2 1 (by decide)⟩

/-- C5: in any reachable engine state with a non-empty feedback stack in which exactly
1 or exactly 2 solution-vocabulary words are consistent with the stack, `getGuess`
returns the first such consistent word in solution-vocabulary order. -/
theorem claim_c5_few_candidates (gl al : List Word) (fbs : List GuessFeedback)
    (h1 : fbs ≠ [])
    (h2 : (possibleSolutions (reachableGame gl al fbs)).length = 1 ∨
      (possibleSolutions (reachableGame gl al fbs)).length = 2) :
    ∃ w t, possibleSolutions (reachableGame gl al fbs) = w :: t ∧
      (reachableGame gl al fbs).getGuess = some w := by
  have hne : possibleSolutions (reachableGame gl al fbs) ≠ [] := by
    intro h
    rw [h] at h2
    rcases h2 with h2 | h2 <;> simp at h2
  obtain ⟨w, t, hc⟩ := List.exists_cons_of_ne_nil hne
  have hal : al ≠ [] := by
    intro h
    apply hne
    rw [possibleSolutions_reachable, h]
    rfl
  have hgw : (reachableGame gl al fbs).guessWords ≠ [] := by
    show gl ++ al ≠ []
    intro h
    exact hal (List.append_eq_nil.mp h).2
  obtain ⟨g0, rest, hg⟩ := List.exists_cons_of_ne_nil hgw
  have hlen : (w :: t).length ≤ 2 := by
    rw [← hc]
    rcases h2 with h2 | h2 <;> omega
  exact ⟨w, t, hc, getGuess_small (reachableGame gl al fbs) g0 rest w t h1 hg hc hlen⟩

/-- Witness for C5: one feedback leaves exactly one consistent word ("angle"),
and `getGuess` returns it. -/
theorem claim_c5_witness :
    ([GuessFeedback.ofId wordApple (computeFeedbackId wordApple wordAngle)] ≠
        ([] : List GuessFeedback) ∧
      ((possibleSolutions (reachableGame [] [wordApple, wordAngle, wordAmple]
          [GuessFeedback.ofId wordApple (computeFeedbackId wordApple wordAngle)])).length = 1 ∨
        (possibleSolutions (reachableGame [] [wordApple, wordAngle, wordAmple]
          [GuessFeedback.ofId wordApple (computeFeedbackId wordApple wordAngle)])).length = 2)) ∧
    (∃ w t, possibleSolutions (reachableGame [] [wordApple, wordAngle, wordAmple]
        [GuessFeedback.ofId wordApple (computeFeedbackId wordApple wordAngle)]) = w :: t ∧
      (reachableGame [] [wordApple, wordAngle, wordAmple]
        [GuessFeedback.ofId wordApple (computeFeedbackId wordApple wordAngle)]).getGuess =
          some w) :=
  ⟨⟨by decide, by decide⟩,
    claim_c5_few_candidates [] [wordApple, wordAngle, wordAmple]
      [GuessFeedback.ofId wordApple (computeFeedbackId wordApple wordAngle)]
      (by decide) (by decide)⟩

/-- C6: in any reachable engine state with a non-empty feedback stack and no consistent
solution-vocabulary word, `getGuess` falls through to the full search over an empty
candidate set, every potential guess receives score 0, and the first entry of the guess
vocabulary is returned. -/
theorem claim_c6_no_candidates (gl al : List Word) (fbs : List GuessFeedback)
    (g0 : Word) (t : List Word) (h1 : fbs ≠ [])
    (h2 : possibleSolutions (reachableGame gl al fbs) = [])
    (h3 : gl ++ al = g0 :: t) :
    (∀ g : Word, numberRemainingPossibleSolutions (reachableGame gl al fbs) g = 0) ∧
    (reachableGame gl al fbs).getGuess = some g0 := by
  refine ⟨fun g => score_eq_zero_of_no_possible (reachableGame gl al fbs) h2 g, ?_⟩
  have hfull := getGuess_full (reachableGame gl al fbs) g0 t h1 h3 (Or.inr h2)
  rw [hfull]
  obtain ⟨i, hi, heq, hmin, hfirst⟩ :=
    selectBest_spec (numberRemainingPossibleSolutions (reachableGame gl al fbs)) g0 t
  cases i with
  | zero =>
    rw [heq]
    rfl
  | succ n =>
    exfalso
    have h0 := hfirst 0 (Nat.succ_pos t.length) (Nat.succ_pos n)
    rw [score_eq_zero_of_no_possible (reachableGame gl al fbs) h2,
      score_eq_zero_of_no_possible (reachableGame gl al fbs) h2] at h0
    exact Nat.lt_irrefl 0 h0

/-- Witness for C6: a feedback inconsistent with the only answer word empties the
candidate set, every score is 0, and the first guess-vocabulary entry is returned. -/
theorem claim_c6_witness :
    ([GuessFeedback.ofId wordApple 0] ≠ ([] : List GuessFeedback) ∧
      possibleSolutions (reachableGame [wordAngle] [wordApple]
        [GuessFeedback.ofId wordApple 0]) = [] ∧
      [wordAngle] ++ [wordApple] = wordAngle :: [wordApple]) ∧
    ((∀ g : Word, numberRemainingPossibleSolutions (reachableGame [wordAngle] [wordApple]
        [GuessFeedback.ofId wordApple 0]) g = 0) ∧
      (reachableGame [wordAngle] [wordApple]
        [GuessFeedback.ofId wordApple 0]).getGuess = some wordAngle) :=
  ⟨⟨by decide, by decide, rfl⟩,
    claim_c6_no_candidates [wordAngle] [wordApple] [GuessFeedback.ofId wordApple 0]
      wordAngle [wordApple] (by decide) (by decide) rfl⟩

/-- C7: in the full-search case (non-empty stack, and either at least 3 candidates or
none), `getGuess` returns the first word in guess-vocabulary iteration order among
those achieving the minimal score (strict less-than comparison resolves ties to the
first encountered), and it is a deterministic function of the engine state. -/
theorem claim_c7_first_minimal (gl al : List Word) (fbs : List GuessFeedback)
    (g0 : Word) (t : List Word) (h1 : fbs ≠ [])
    (h2 : 3 ≤ (possibleSolutions (reachableGame gl al fbs)).length ∨
      possibleSolutions (reachableGame gl al fbs) = [])
    (h3 : gl ++ al = g0 :: t) :
    (∃ i, ∃ hi : i < (g0 :: t).length,
      (reachableGame gl al fbs).getGuess = some ((g0 :: t).get ⟨i, hi⟩) ∧
      (∀ j, ∀ hj : j < (g0 :: t).length,
        numberRemainingPossibleSolutions (reachableGame gl al fbs) ((g0 :: t).get ⟨i, hi⟩) ≤
          numberRemainingPossibleSolutions (reachableGame gl al fbs) ((g0 :: t).get ⟨j, hj⟩)) ∧
      (∀ j, ∀ hj : j < (g0 :: t).length, j < i →
        numberRemainingPossibleSolutions (reachableGame gl al fbs) ((g0 :: t).get ⟨i, hi⟩) <
          numberRemainingPossibleSolutions (reachableGame gl al fbs) ((g0 :: t).get ⟨j, hj⟩))) ∧
    (∀ game2 : WordleGame, game2 = reachableGame gl al fbs →
      game2.getGuess = (reachableGame gl al fbs).getGuess) := by
  refine ⟨?_, fun game2 he => by rw [he]⟩
  have hfull := getGuess_full (reachableGame gl al fbs) g0 t h1 h3 h2
  obtain ⟨i, hi, heq, hmin, hfirst⟩ :=
    selectBest_spec (numberRemainingPossibleSolutions (reachableGame gl al fbs)) g0 t
  refine ⟨i, hi, ?_, hmin, hfirst⟩
  rw [hfull]
  exact heq

/-- Witness for C7: a state with 3 candidates, where the theorem locates the returned
guess as a first-minimal entry of the guess vocabulary. -/
theorem claim_c7_witness :
    ([GuessFeedback.ofId wordZippy 0] ≠ ([] : List GuessFeedback) ∧
      (3 ≤ (possibleSolutions (reachableGame [] [wordApple, wordAngle, wordAmple]
          [GuessFeedback.ofId wordZippy 0])).length ∨
        possibleSolutions (reachableGame [] [wordApple, wordAngle, wordAmple]
          [GuessFeedback.ofId wordZippy 0]) = []) ∧
      [] ++ [wordApple, wordAngle, wordAmple] = wordApple :: [wordAngle, wordAmple]) ∧
    ((∃ i, ∃ hi : i < (wordApple :: [wordAngle, wordAmple]).length,
      (reachableGame [] [wordApple, wordAngle, wordAmple]
        [GuessFeedback.ofId wordZippy 0]).getGuess =
          some ((wordApple :: [wordAngle, wordAmple]).get ⟨i, hi⟩) ∧
      (∀ j, ∀ hj : j < (wordApple :: [wordAngle, wordAmple]).length,
        numberRemainingPossibleSolutions (reachableGame [] [wordApple, wordAngle, wordAmple]
            [GuessFeedback.ofId wordZippy 0])
            ((wordApple :: [wordAngle, wordAmple]).get ⟨i, hi⟩) ≤
          numberRemainingPossibleSolutions (reachableGame [] [wordApple, wordAngle, wordAmple]
            [GuessFeedback.ofId wordZippy 0])
            ((wordApple :: [wordAngle, wordAmple]).get ⟨j, hj⟩)) ∧
      (∀ j, ∀ hj : j < (wordApple :: [wordAngle, wordAmple]).length, j < i →
        numberRemainingPossibleSolutions (reachableGame [] [wordApple, wordAngle, wordAmple]
            [GuessFeedback.ofId wordZippy 0])
            ((wordApple :: [wordAngle, wordAmple]).get ⟨i, hi⟩) <
          numberRemainingPossibleSolutions (reachableGame [] [wordApple, wordAngle, wordAmple]
            [GuessFeedback.ofId wordZippy 0])
            ((wordApple :: [wordAngle, wordAmple]).get ⟨j, hj⟩))) ∧
    (∀ game2 : WordleGame, game2 = reachableGame [] [wordApple, wordAngle, wordAmple]
        [GuessFeedback.ofId wordZippy 0] →
      game2.getGuess = (reachableGame [] [wordApple, wordAngle, wordAmple]
        [GuessFeedback.ofId wordZippy 0]).getGuess)) :=
  ⟨⟨by decide, by decide, rfl⟩,
    claim_c7_first_minimal [] [wordApple, wordAngle, wordAmple]
      [GuessFeedback.ofId wordZippy 0] wordApple [wordAngle, wordAmple]
      (by decide) (by decide) rfl⟩

/-- C1: in any reachable engine state with a non-empty feedback stack and at least 3
candidate solutions, the score `numberRemainingPossibleSolutions` that `getGuess`
accumulates for every potential guess `g` through speculative push/pop equals the sum
over all feedback keys `k` of the squared bucket size `feedbackIdCount` (the number of
candidate solutions producing feedback id `k` for `g`), and `getGuess` returns a
guess-vocabulary word minimizing this score. -/
theorem claim_c1_score_and_minimality (gl al : List Word) (fbs : List GuessFeedback)
    (h1 : fbs ≠ [])
    (h2 : 3 ≤ (possibleSolutions (reachableGame gl al fbs)).length) :
    (∀ g : Word,
      numberRemainingPossibleSolutions (reachableGame gl al fbs) g =
        ((List.range (MAX_FEEDBACK_ID + 1)).map
          (fun k => feedbackIdCount (reachableGame gl al fbs) g k *
            feedbackIdCount (reachableGame gl al fbs) g k)).sum) ∧
    (∃ best : Word,
      (reachableGame gl al fbs).getGuess = some best ∧
      best ∈ (reachableGame gl al fbs).guessWords ∧
      ∀ g ∈ (reachableGame gl al fbs).guessWords,
        numberRemainingPossibleSolutions (reachableGame gl al fbs) best ≤
          numberRemainingPossibleSolutions (reachableGame gl al fbs) g) := by
  refine ⟨fun g => score_eq_sum_sq (reachableGame gl al fbs) g, ?_⟩
  have hal : al ≠ [] := by
    intro h
    rw [possibleSolutions_reachable, h] at h2
    simp at h2
  have hgw : (reachableGame gl al fbs).guessWords ≠ [] := by
    show gl ++ al ≠ []
    intro h
    exact hal (List.append_eq_nil.mp h).2
  obtain ⟨g0, rest, hg⟩ := List.exists_cons_of_ne_nil hgw
  have hg2 : gl ++ al = g0 :: rest := hg
  have hfull := getGuess_full (reachableGame gl al fbs) g0 rest h1 hg (Or.inl h2)
  obtain ⟨i, hi, heq, hmin, _⟩ :=
    selectBest_spec (numberRemainingPossibleSolutions (reachableGame gl al fbs)) g0 rest
  refine ⟨(g0 :: rest).get ⟨i, hi⟩, ?_, ?_, ?_⟩
  · rw [hfull]
    exact heq
  · show (g0 :: rest).get ⟨i, hi⟩ ∈ gl ++ al
    rw [hg2]
    exact List.get_mem (g0 :: rest) i hi
  · intro g hmem
    have hmem2 : g ∈ g0 :: rest := by
      rw [← hg2]
      exact hmem
    obtain ⟨⟨j, hj⟩, hget⟩ := List.mem_iff_get.mp hmem2
    rw [← hget]
    exact hmin j hj

/-- Witness for C1 at a 3-candidate state. -/
theorem claim_c1_witness :
    ([GuessFeedback.ofId wordZippy 0] ≠ ([] : List GuessFeedback) ∧
      3 ≤ (possibleSolutions (reachableGame [] [wordApple, wordAngle, wordAmple]
        [GuessFeedback.ofId wordZippy 0])).length) ∧
    ((∀ g : Word,
      numberRemainingPossibleSolutions (reachableGame [] [wordApple, wordAngle, wordAmple]
          [GuessFeedback.ofId wordZippy 0]) g =
        ((List.range (MAX_FEEDBACK_ID + 1)).map
          (fun k => feedbackIdCount (reachableGame [] [wordApple, wordAngle, wordAmple]
              [GuessFeedback.ofId wordZippy 0]) g k *
            feedbackIdCount (reachableGame [] [wordApple, wordAngle, wordAmple]
              [GuessFeedback.ofId wordZippy 0]) g k)).sum) ∧
    (∃ best : Word,
      (reachableGame [] [wordApple, wordAngle, wordAmple]
        [GuessFeedback.ofId wordZippy 0]).getGuess = some best ∧
      best ∈ (reachableGame [] [wordApple, wordAngle, wordAmple]
        [GuessFeedback.ofId wordZippy 0]).guessWords ∧
      ∀ g ∈ (reachableGame [] [wordApple, wordAngle, wordAmple]
          [GuessFeedback.ofId wordZippy 0]).guessWords,
        numberRemainingPossibleSolutions (reachableGame [] [wordApple, wordAngle, wordAmple]
            [GuessFeedback.ofId wordZippy 0]) best ≤
          numberRemainingPossibleSolutions (reachableGame [] [wordApple, wordAngle, wordAmple]
            [GuessFeedback.ofId wordZippy 0]) g)) :=
  ⟨⟨by decide, by decide⟩,
    claim_c1_score_and_minimality [] [wordApple, wordAngle, wordAmple]
      [GuessFeedback.ofId wordZippy 0] (by decide) (by decide)⟩

/-- C9: constructing a `GuessFeedback` from a guess string and a feedback string fails
exactly when the guess length differs from 5, the feedback length differs from 5, or
some feedback character is not 'r', 'y' or 'g'; and when the interaction loop catches
such a failure, the engine state (in particular the feedback stack) is unchanged. -/
theorem claim_c9_invalid_feedback (game : WordleGame) (gs fs : List Char) :
    (GuessFeedback.ofStrings gs fs = none ↔
      gs.length ≠ WORD_LENGTH ∨ fs.length ≠ WORD_LENGTH ∨
        ∃ c ∈ fs, c ≠ 'r' ∧ c ≠ 'y' ∧ c ≠ 'g') ∧
    (GuessFeedback.ofStrings gs fs = none → tryPushFeedback game gs fs = game) := by
  constructor
  · unfold GuessFeedback.ofStrings
    by_cases hg : gs.length ≠ WORD_LENGTH
    · simp [hg]
    · rw [if_neg hg]
      by_cases hf : fs.length ≠ WORD_LENGTH
      · simp [hg, hf]
      · rw [if_neg hf]
        have hiff : parseFeedbackChars fs = none ↔
            ∃ c ∈ fs, c ≠ 'r' ∧ c ≠ 'y' ∧ c ≠ 'g' := by
          rw [parseFeedbackChars_eq_none]
          constructor
          · rintro ⟨c, hc, hbad⟩
            exact ⟨c, hc, (charToFeedback_eq_none c).mp hbad⟩
          · rintro ⟨c, hc, hbad⟩
            exact ⟨c, hc, (charToFeedback_eq_none c).mpr hbad⟩
        cases hp : parseFeedbackChars fs with
        | none =>
          simp only [true_iff]
          exact Or.inr (Or.inr (hiff.mp hp))
        | some codes =>
          simp only [reduceCtorEq, false_iff]
          rintro (h | h | h)
          · exact hg h
          · exact hf h
          · have : parseFeedbackChars fs = none := hiff.mpr h
            rw [this] at hp
            exact Option.noConfusion hp
  · intro hnone
    unfold tryPushFeedback
    rw [hnone]

/-- Witness for C9: an invalid feedback character fails construction and leaves a
concrete engine state untouched. -/
theorem claim_c9_witness :
    GuessFeedback.ofStrings ['a', 'p', 'p', 'l', 'e'] ['r', 'y', 'x', 'g', 'g'] = none ∧
    tryPushFeedback (mkGame [] [wordApple]) ['a', 'p', 'p', 'l', 'e'] ['r', 'y', 'x', 'g', 'g'] =
      mkGame [] [wordApple] :=
  ⟨by decide,
    (claim_c9_invalid_feedback (mkGame [] [wordApple]) ['a', 'p', 'p', 'l', 'e']
      ['r', 'y', 'x', 'g', 'g']).2 (by decide)⟩

end WordleSolver
